import Mathlib

/-!
Shallow embedding of the diagnostic-comparison scripts
(compare_checkers.py and compare_pyright_pyrefly.py).

Python strings are modelled as lists of Unicode characters (List Char),
matching Python's code-point view of str.  Fallible Python operations
(int(...), sequence indexing) are modelled with Option / Except: a raised
ValueError or IndexError becomes an Except.error value that aborts the
surrounding function, exactly as an uncaught exception aborts the Python
function.
-/

/-- Whitespace as used by str.strip / str.split-free contexts and by the
regex class \s (ASCII part: space, tab, newline, carriage return,
vertical tab, form feed). -/
def isPySpace (c : Char) : Bool :=
  c = ' ' || c = '\t' || c = '\n' || c = '\r' || c = '\x0b' || c = '\x0c'

/-- Model of Python str.strip(): drop leading and trailing whitespace. -/
def pyStrip (cs : List Char) : List Char :=
  ((cs.dropWhile isPySpace).reverse.dropWhile isPySpace).reverse

/-- Worker for pySplitlines: cur is the reversed current line. -/
def pySplitlinesGo (cur : List Char) : List Char → List (List Char)
  | [] => [cur.reverse]
  | '\r' :: '\n' :: rest =>
    cur.reverse :: (if rest.isEmpty then [] else pySplitlinesGo [] rest)
  | '\n' :: rest =>
    cur.reverse :: (if rest.isEmpty then [] else pySplitlinesGo [] rest)
  | '\r' :: rest =>
    cur.reverse :: (if rest.isEmpty then [] else pySplitlinesGo [] rest)
  | c :: rest => pySplitlinesGo (c :: cur) rest

/-- Model of Python str.splitlines(): split at line breaks, producing no
trailing empty line when the text ends with a break, and [] on "". -/
def pySplitlines : List Char → List (List Char)
  | [] => []
  | c :: rest => pySplitlinesGo [] (c :: rest)

/-- Worker for pySplitChar: cur is the reversed current field. -/
def pySplitCharGo (sep : Char) (cur : List Char) : List Char → List (List Char)
  | [] => [cur.reverse]
  | c :: rest =>
    if c = sep then cur.reverse :: pySplitCharGo sep [] rest
    else pySplitCharGo sep (c :: cur) rest

/-- Model of Python str.split(sep) for a one-character separator: keeps
empty fields, and the empty string yields a single empty field. -/
def pySplitChar (sep : Char) (cs : List Char) : List (List Char) :=
  pySplitCharGo sep [] cs

/-- Model of Python sep.join(parts) for a one-character separator. -/
def pyJoin (sep : Char) (parts : List (List Char)) : List Char :=
  List.intercalate [sep] parts

/-- Numeric value of a run of decimal digits. -/
def digitsVal (ds : List Char) : Nat :=
  ds.foldl (fun a c => a * 10 + (c.toNat - 48)) 0

/-- Model of Python int(s): strip whitespace, allow one optional sign,
then require a nonempty run of decimal digits; none models a raised
ValueError.  (Python additionally accepts some Unicode digits and
underscore digit separators; those do not occur in checker output.) -/
def pyInt (cs : List Char) : Option Int :=
  match pyStrip cs with
  | [] => none
  | '-' :: ds =>
    if ds.isEmpty then none
    else if ds.all Char.isDigit then some (-(digitsVal ds : Int)) else none
  | '+' :: ds =>
    if ds.isEmpty then none
    else if ds.all Char.isDigit then some (digitsVal ds : Int) else none
  | ds => if ds.all Char.isDigit then some (digitsVal ds : Int) else none

/-- Last element of a split result, modelling Python's parts[-1]
(pySplitChar never returns an empty list, so the default is dead). -/
def pyLast (parts : List (List Char)) : List Char :=
  parts.getLastD []

/-- First element of a split result, modelling Python's parts[0]
(pySplitChar never returns an empty list, so the default is dead). -/
def pyFirst (parts : List (List Char)) : List Char :=
  parts.headD []

/-- Model of parts[0].split('/')[-1]: the basename of a raw path. -/
def pyBasename (cs : List Char) : List Char :=
  pyLast (pySplitChar '/' cs)

/-- Python exceptions that the scripts can raise while parsing. -/
inductive PyErr where
  | valueError
  | indexError
  deriving DecidableEq, Repr

/-- Canonical diagnostic record appended by the compare_checkers.py
parsers: (file_path, line_number, error_message). -/
structure Diag where
  file_path : List Char
  line_number : Int
  error_message : List Char
  deriving DecidableEq, Repr

/-- Location Key of a record: the (file_path, line_number) pair used by
compare_outputs. -/
def dkey (d : Diag) : List Char × Int := (d.file_path, d.line_number)

/-- Run a per-line parser over a list of lines, accumulating records in
order; a raised exception aborts the whole parse, as in Python. -/
def runLines (f : List Char → Except PyErr (Option Diag)) :
    List (List Char) → Except PyErr (List Diag)
  | [] => .ok []
  | l :: ls =>
    match f l with
    | .error e => .error e
    | .ok none => runLines f ls
    | .ok (some d) => (runLines f ls).map (fun ds => d :: ds)

/-- One loop iteration of parse_ty_output: lines starting with "error"
are split on ':'; parts[0] is basenamed, int(parts[1]) is the line
number (ValueError when not an integer, IndexError when parts[1] is
missing), and the remaining fields are rejoined as the message. -/
def parseTyLine (cs : List Char) : Except PyErr (Option Diag) :=
  if ("error".toList).isPrefixOf cs then
    match (pySplitChar ':' cs)[1]? with
    | none => .error .indexError
    | some p1 =>
      match pyInt p1 with
      | none => .error .valueError
      | some n =>
        .ok (some ⟨pyBasename (pyFirst (pySplitChar ':' cs)), n,
          pyJoin ':' ((pySplitChar ':' cs).drop 2)⟩)
  else .ok none

/-- Model of parse_ty_output (compare_checkers.py lines 5-14). -/
def parse_ty_output (output : String) : Except PyErr (List Diag) :=
  runLines parseTyLine (pySplitlines output.toList)

/-- One loop iteration of parse_pyrefly_output: lines starting with
"ERROR", line number int(parts[1].split('-')[0]). -/
def parsePyreflyLine (cs : List Char) : Except PyErr (Option Diag) :=
  if ("ERROR".toList).isPrefixOf cs then
    match (pySplitChar ':' cs)[1]? with
    | none => .error .indexError
    | some p1 =>
      match pyInt (pyFirst (pySplitChar '-' p1)) with
      | none => .error .valueError
      | some n =>
        .ok (some ⟨pyBasename (pyFirst (pySplitChar ':' cs)), n,
          pyJoin ':' ((pySplitChar ':' cs).drop 2)⟩)
  else .ok none

/-- Model of parse_pyrefly_output (compare_checkers.py lines 16-25). -/
def parse_pyrefly_output (output : String) : Except PyErr (List Diag) :=
  runLines parsePyreflyLine (pySplitlines output.toList)

/-- One loop iteration of parse_pyright_output: lines starting with
"/Users/" are split on '-'; file_path is the first ':'-field of
parts[0], and the code then evaluates int(file_path[1].strip()) -- the
second character of the path string -- before reading parts[1]. -/
def parsePyrightLine (cs : List Char) : Except PyErr (Option Diag) :=
  if ("/Users/".toList).isPrefixOf cs then
    match (pyFirst (pySplitChar ':' (pyFirst (pySplitChar '-' cs))))[1]? with
    | none => .error .indexError
    | some c =>
      match pyInt (pyStrip [c]) with
      | none => .error .valueError
      | some n =>
        match (pySplitChar '-' cs)[1]? with
        | none => .error .indexError
        | some p1 =>
          .ok (some ⟨pyFirst (pySplitChar ':' (pyFirst (pySplitChar '-' cs))), n,
            pyStrip p1⟩)
  else .ok none

/-- Model of parse_pyright_output (compare_checkers.py lines 27-42). -/
def parse_pyright_output (output : String) : Except PyErr (List Diag) :=
  runLines parsePyrightLine (pySplitlines output.toList)

/-- Trailing tag that parse_pyper_output matches on. -/
def pyperTag : List Char := "Unused ignore [0]:".toList

/-- One loop iteration of parse_pyper_output: lines ending with the tag
are split on ':'; the message is the rejoined tail with the tag text
appended onto it again. -/
def parsePyperLine (cs : List Char) : Except PyErr (Option Diag) :=
  if pyperTag.isSuffixOf cs then
    match (pySplitChar ':' cs)[1]? with
    | none => .error .indexError
    | some p1 =>
      match pyInt p1 with
      | none => .error .valueError
      | some n =>
        .ok (some ⟨pyBasename (pyFirst (pySplitChar ':' cs)), n,
          pyJoin ':' ((pySplitChar ':' cs).drop 2) ++ pyperTag⟩)
  else .ok none

/-- Model of parse_pyper_output (compare_checkers.py lines 44-53). -/
def parse_pyper_output (output : String) : Except PyErr (List Diag) :=
  runLines parsePyperLine (pySplitlines output.toList)

deriving instance DecidableEq for Except

/-- One value of the errors dict built by compare_outputs: the set of
checkers that reported at the key (a Python set, modelled as a
duplicate-free list built with insert) and the stored message. -/
structure Entry where
  checkers : List String
  error_message : List Char
  deriving DecidableEq, Repr

/-- The errors dict of compare_outputs, in insertion order. -/
abbrev ErrMap := List ((List Char × Int) × Entry)

/-- Python dict lookup errors[key] on the model. -/
def findEntry (m : ErrMap) (key : List Char × Int) : Option Entry :=
  match m with
  | [] => none
  | (k, e) :: rest => if k = key then some e else findEntry rest key

/-- Checker set stored at a key ([] when the key is absent). -/
def checkersAt (m : ErrMap) (key : List Char × Int) : List String :=
  match findEntry m key with
  | none => []
  | some e => e.checkers

/-- One iteration of the record loop in compare_outputs (lines 68-73):
a new key appends a fresh entry holding this record's message; an
existing key only gains the checker in its set. -/
def addError (m : ErrMap) (checker : String) (d : Diag) : ErrMap :=
  match m with
  | [] => [(dkey d, ⟨[checker], d.error_message⟩)]
  | (k, e) :: rest =>
    if k = dkey d then (k, ⟨e.checkers.insert checker, e.error_message⟩) :: rest
    else (k, e) :: addError rest checker d

/-- The inner for-loop of compare_outputs over one tool's records. -/
def foldAdd (m : ErrMap) (checker : String) (ds : List Diag) : ErrMap :=
  ds.foldl (fun m2 d => addError m2 checker d) m

/-- The if/elif dispatch of compare_outputs on the checker name;
unrecognized checkers contribute an empty record list. -/
def dispatchParse (checker : String) (output : String) : Except PyErr (List Diag) :=
  if checker = "ty" then parse_ty_output output
  else if checker = "pyrefly" then parse_pyrefly_output output
  else if checker = "pyright" then parse_pyright_output output
  else if checker = "pyre" then parse_pyper_output output
  else .ok []

/-- The outer loop of compare_outputs over outputs.items(); a parser
exception aborts the whole comparison, as in Python. -/
def buildErrors (m : ErrMap) : List (String × String) → Except PyErr ErrMap
  | [] => .ok m
  | (checker, output) :: rest =>
    match dispatchParse checker output with
    | .error e => .error e
    | .ok ds => buildErrors (foldAdd m checker ds) rest

/-- Model of compare_outputs (compare_checkers.py lines 55-75): the
errors dict it builds from the per-tool raw texts. -/
def compare_outputs (outputs : List (String × String)) : Except PyErr ErrMap :=
  buildErrors [] outputs

/-- Model of the common_errors comprehension (line 75): keys whose
checker set has more than one element, in dict order. -/
def common_errors (m : ErrMap) : ErrMap :=
  m.filter (fun p => 1 < p.2.checkers.length)

/-- Model of the unique_errors comprehension (line 84): keys whose
checker set has exactly one element, in dict order. -/
def unique_errors (m : ErrMap) : ErrMap :=
  m.filter (fun p => p.2.checkers.length = 1)

/-- Predicate: in the given outputs mapping, the tool named c reports at
least one diagnostic whose Location Key is key (its parser succeeding). -/
abbrev reportsAt (outputs : List (String × String)) (c : String)
    (key : List Char × Int) : Prop :=
  ∃ out, (c, out) ∈ outputs ∧
    ∃ ds, dispatchParse c out = .ok ds ∧ ∃ d ∈ ds, dkey d = key


/-!
Model of compare_pyright_pyrefly.py.  The unified regex
DIAG_RE = ^\s*(?:ERROR\s+)?(path [^:]+):(row \d+):(rest .*) is modelled
by an explicit matcher that reproduces the engine's backtracking over
the two greedy optional parts.
-/

/-- Core of DIAG_RE after the optional parts: a nonempty run of
non-colon characters, a colon, a nonempty greedy digit run, a colon,
then the rest of the line. -/
def coreMatch (cs : List Char) : Option (List Char × List Char × List Char) :=
  let path := cs.takeWhile (fun c => c ≠ ':')
  if path.isEmpty then none
  else
    match cs.drop path.length with
    | ':' :: after =>
      let ds := after.takeWhile Char.isDigit
      if ds.isEmpty then none
      else
        match after.drop ds.length with
        | ':' :: r => some (path, ds, r)
        | _ => none
    | _ => none

/-- Backtracking over how many of the characters after "ERROR" the
greedy \s+ consumes: try p characters, then p-1, ..., down to 1. -/
def tryFrom (afterE : List Char) : Nat → Option (List Char × List Char × List Char)
  | 0 => none
  | p + 1 =>
    match coreMatch (afterE.drop (p + 1)) with
    | some r => some r
    | none => tryFrom afterE p

/-- The optional (?:ERROR\s+) group: it participates only when "ERROR"
is followed by at least one whitespace character. -/
def errorBranch (cs : List Char) : Option (List Char × List Char × List Char) :=
  if ("ERROR".toList).isPrefixOf cs then
    let afterE := cs.drop 5
    let w := afterE.takeWhile isPySpace
    if w.isEmpty then none else tryFrom afterE w.length
  else none

/-- One starting offset for the leading \s*: first the ERROR branch,
then the plain branch, as the regex engine orders alternatives. -/
def attemptAt (cs : List Char) (q : Nat) : Option (List Char × List Char × List Char) :=
  match errorBranch (cs.drop q) with
  | some r => some r
  | none => coreMatch (cs.drop q)

/-- Backtracking over how much the greedy leading \s* consumes. -/
def tryLead (cs : List Char) : Nat → Option (List Char × List Char × List Char)
  | 0 => attemptAt cs 0
  | q + 1 =>
    match attemptAt cs (q + 1) with
    | some r => some r
    | none => tryLead cs q

/-- Model of DIAG_RE.match(line): returns (path, row, rest) captures. -/
def diagMatch (line : List Char) : Option (List Char × List Char × List Char) :=
  tryLead line ((line.takeWhile isPySpace).length)

/-- Model of parse (compare_pyright_pyrefly.py lines 45-52): matched
lines yield (path.strip(), row, rest.strip()); the row capture stays a
digit string. -/
def parse (text : String) : List (List Char × List Char × List Char) :=
  (pySplitlines text.toList).filterMap (fun line =>
    (diagMatch line).map (fun t => (pyStrip t.1, t.2.1, pyStrip t.2.2)))

/-- The f-string key f"{p}:{row}" used for locations. -/
def locOf (p row : List Char) : List Char := p ++ ':' :: row

/-- Message sets per location, as built by to_map (lines 102-106):
a dict from "path:row" to the set of rest strings. -/
abbrev MsgMap := List (List Char × List (List Char))

/-- One mp[key].add(rest) step of to_map. -/
def addMsg (mp : MsgMap) (key : List Char) (msg : List Char) : MsgMap :=
  match mp with
  | [] => [(key, [msg])]
  | (k, ms) :: rest =>
    if k = key then (k, ms.insert msg) :: rest
    else (k, ms) :: addMsg rest key msg

/-- Worker for to_map over the remaining items. -/
def to_map_go (mp : MsgMap) : List (List Char × List Char × List Char) → MsgMap
  | [] => mp
  | (p, row, rest) :: items => to_map_go (addMsg mp (locOf p row) rest) items

/-- Model of to_map (compare_pyright_pyrefly.py lines 102-106). -/
def to_map (items : List (List Char × List Char × List Char)) : MsgMap :=
  to_map_go [] items

/-- Lookup in a message map; a missing key gives the defaultdict's
empty set. -/
def lookupMsgs (mp : MsgMap) (key : List Char) : List (List Char) :=
  match mp with
  | [] => []
  | (k, ms) :: rest => if k = key then ms else lookupMsgs rest key

/-- The set of "path:row" keys of a parsed list (py_rows / pr_rows). -/
def rowsOf (items : List (List Char × List Char × List Char)) : List (List Char) :=
  (items.map (fun t => locOf t.1 t.2.1)).dedup

/-- Model of overlapping_locs = py_rows & pr_rows. -/
def overlapping_locs (pyL prL : List (List Char × List Char × List Char)) :
    List (List Char) :=
  (rowsOf pyL).filter (fun k => k ∈ rowsOf prL)

/-- Python string comparison: lexicographic on code points, a proper
prefix ordering before its extensions. -/
def pyStrLt : List Char → List Char → Bool
  | [], [] => false
  | [], _ :: _ => true
  | _ :: _, [] => false
  | c :: cs, d :: ds =>
    if c.toNat < d.toNat then true
    else if d.toNat < c.toNat then false
    else pyStrLt cs ds

/-- Non-strict Python string order, the order used by sorted(). -/
def pyStrLe (a b : List Char) : Bool := !(pyStrLt b a)

/-- Insert into a run kept in nondecreasing order. -/
def insertSorted (le : List Char → List Char → Bool) (a : List Char) :
    List (List Char) → List (List Char)
  | [] => [a]
  | b :: bs => if le a b then a :: b :: bs else b :: insertSorted le a bs

/-- Insertion sort, modelling Python's sorted() for our orders. -/
def insertionSort (le : List Char → List Char → Bool) :
    List (List Char) → List (List Char)
  | [] => []
  | a :: as => insertSorted le a (insertionSort le as)

/-- Model of the agree-only report loop (lines 134-140): locations in
sorted order; for each, first the sorted Pyright messages, then the
sorted Pyrefly messages. -/
def agreeOnlyReport (pyL prL : List (List Char × List Char × List Char)) :
    List (List Char × List (List Char) × List (List Char)) :=
  (insertionSort pyStrLe (overlapping_locs pyL prL)).map (fun loc =>
    (loc, insertionSort pyStrLe (lookupMsgs (to_map pyL) loc),
      insertionSort pyStrLe (lookupMsgs (to_map prL) loc)))

/-!
General lemmas about the per-line parsing loop.
-/

/-- Every record produced by a successful runLines pass comes from some
input line on which the per-line parser produced exactly that record. -/
theorem runLines_ok_mem {f : List Char → Except PyErr (Option Diag)} :
    ∀ {lines : List (List Char)} {recs : List Diag},
      runLines f lines = .ok recs → ∀ d ∈ recs, ∃ l ∈ lines, f l = .ok (some d) := by
  intro lines
  induction lines with
  | nil =>
    intro recs h d hd
    simp only [runLines, Except.ok.injEq] at h
    subst h
    simp at hd
  | cons l ls ih =>
    intro recs h d hd
    simp only [runLines] at h
    cases hfl : f l with
    | error e => rw [hfl] at h; cases h
    | ok o =>
      rw [hfl] at h
      cases o with
      | none =>
        obtain ⟨l2, hl2, hfl2⟩ := ih h d hd
        exact ⟨l2, List.mem_cons_of_mem _ hl2, hfl2⟩
      | some d0 =>
        cases hr : runLines f ls with
        | error e => rw [hr] at h; cases h
        | ok ds =>
          rw [hr] at h
          simp only [Except.map, Except.ok.injEq] at h
          subst h
          rcases List.mem_cons.mp hd with hd0 | hds
          · exact ⟨l, List.mem_cons_self _ _, by rw [hfl, hd0]⟩
          · obtain ⟨l2, hl2, hfl2⟩ := ih hr d hds
            exact ⟨l2, List.mem_cons_of_mem _ hl2, hfl2⟩

/-- A record emitted by the ty per-line parser carries exactly the
integer that int() parsed out of the second colon-field of its line. -/
theorem parseTyLine_some {l : List Char} {d : Diag}
    (h : parseTyLine l = .ok (some d)) :
    ("error".toList).isPrefixOf l = true ∧
      (∃ p1, (pySplitChar ':' l)[1]? = some p1 ∧ pyInt p1 = some d.line_number) ∧
      d.file_path = pyBasename (pyFirst (pySplitChar ':' l)) := by
  unfold parseTyLine at h
  split at h
  case isTrue hp =>
    split at h
    · cases h
    case h_2 p1 hp1 =>
      split at h
      · cases h
      case h_2 n hn =>
        simp only [Except.ok.injEq, Option.some.injEq] at h
        refine ⟨hp, ⟨p1, hp1, ?_⟩, ?_⟩
        · rw [← h]; exact hn
        · rw [← h]
  case isFalse hp => cases h

/-- Likewise for the pyrefly per-line parser: the line number is the
int() of the first '-'-segment of the second colon-field. -/
theorem parsePyreflyLine_some {l : List Char} {d : Diag}
    (h : parsePyreflyLine l = .ok (some d)) :
    ("ERROR".toList).isPrefixOf l = true ∧
      (∃ p1, (pySplitChar ':' l)[1]? = some p1 ∧
        pyInt (pyFirst (pySplitChar '-' p1)) = some d.line_number) ∧
      d.file_path = pyBasename (pyFirst (pySplitChar ':' l)) := by
  unfold parsePyreflyLine at h
  split at h
  case isTrue hp =>
    split at h
    · cases h
    case h_2 p1 hp1 =>
      split at h
      · cases h
      case h_2 n hn =>
        simp only [Except.ok.injEq, Option.some.injEq] at h
        refine ⟨hp, ⟨p1, hp1, ?_⟩, ?_⟩
        · rw [← h]; exact hn
        · rw [← h]
  case isFalse hp => cases h

/-- Head of a single-character split run: everything up to the first
separator, appended to the already-accumulated reversed field. -/
theorem pySplitCharGo_first (sep : Char) :
    ∀ (rest cur : List Char),
      pyFirst (pySplitCharGo sep cur rest) =
        cur.reverse ++ rest.takeWhile (fun c => c ≠ sep) := by
  intro rest
  induction rest with
  | nil => intro cur; simp [pySplitCharGo, pyFirst]
  | cons c rest ih =>
    intro cur
    by_cases hc : c = sep
    · subst hc
      simp only [pySplitCharGo, if_pos rfl, pyFirst, List.headD_cons,
        List.takeWhile_cons]
      simp
    · simp only [pySplitCharGo, if_neg hc, ih, List.reverse_cons,
        List.takeWhile_cons]
      simp [hc]

/-- First field of pySplitChar: the prefix before the first separator. -/
theorem pySplitChar_first (sep : Char) (cs : List Char) :
    pyFirst (pySplitChar sep cs) = cs.takeWhile (fun c => c ≠ sep) := by
  simpa using pySplitCharGo_first sep cs []

/-- A line recognized by the pyright parser starts with "/Users/", so
the second character of its leading ':'-field is always 'U' and int()
always raises: the per-line parser can never emit a record. -/
theorem parsePyrightLine_never_some (l : List Char) (d : Diag) :
    parsePyrightLine l ≠ .ok (some d) := by
  intro h
  unfold parsePyrightLine at h
  split at h
  case isFalse hp => cases h
  case isTrue hp =>
    obtain ⟨tl, htl⟩ : ∃ tl, l = '/' :: 'U' :: tl := by
      have h7 : "/Users/".toList = ['/', 'U', 's', 'e', 'r', 's', '/'] := rfl
      rw [h7] at hp
      cases l with
      | nil => simp [List.isPrefixOf] at hp
      | cons c1 l1 =>
        cases l1 with
        | nil => simp [List.isPrefixOf] at hp
        | cons c2 l2 =>
          simp only [List.isPrefixOf, Bool.and_eq_true, beq_iff_eq] at hp
          exact ⟨l2, by rw [← hp.1, ← hp.2.1]⟩
    have h1 : pyFirst (pySplitChar '-' l) =
        '/' :: 'U' :: tl.takeWhile (fun c => c ≠ '-') := by
      rw [pySplitChar_first, htl, List.takeWhile_cons, List.takeWhile_cons]
      simp
    have hfp : (pyFirst (pySplitChar ':' (pyFirst (pySplitChar '-' l))))[1]? =
        some 'U' := by
      rw [h1, pySplitChar_first, List.takeWhile_cons, List.takeWhile_cons]
      simp
    split at h
    · cases h
    case h_2 c hc =>
      rw [hfp] at hc
      obtain rfl : 'U' = c := Option.some.inj hc
      split at h
      · cases h
      case h_2 n hn =>
        have hU : pyInt (pyStrip ['U']) = none := by decide
        rw [hU] at hn
        cases hn

/-- A record emitted by the pyper per-line parser comes from a line that
ends with the tag and carries the int() of the second colon-field; its
message is the rejoined tail with the tag appended. -/
theorem parsePyperLine_some {l : List Char} {d : Diag}
    (h : parsePyperLine l = .ok (some d)) :
    pyperTag.isSuffixOf l = true ∧
      (∃ p1, (pySplitChar ':' l)[1]? = some p1 ∧ pyInt p1 = some d.line_number) ∧
      (∃ x, d.error_message = x ++ pyperTag) ∧
      d.file_path = pyBasename (pyFirst (pySplitChar ':' l)) := by
  unfold parsePyperLine at h
  split at h
  case isTrue hp =>
    split at h
    · cases h
    case h_2 p1 hp1 =>
      split at h
      · cases h
      case h_2 n hn =>
        simp only [Except.ok.injEq, Option.some.injEq] at h
        refine ⟨hp, ⟨p1, hp1, by rw [← h]; exact hn⟩, ⟨?_, ?_⟩⟩
        · rw [← h]
          exact ⟨_, rfl⟩
        · rw [← h]
  case isFalse hp => cases h

/-- A line not ending with the tag is skipped by the pyper parser. -/
theorem parsePyperLine_none {l : List Char}
    (h : parsePyperLine l = .ok none) : pyperTag.isSuffixOf l = false := by
  unfold parsePyperLine at h
  split at h
  case isTrue hp =>
    split at h
    · cases h
    · split at h
      · cases h
      · cases h
  case isFalse hp => exact Bool.not_eq_true _ ▸ (Bool.of_not_eq_true hp)

/-- The pyright adapter never emits a record: a successful parse is
always empty. -/
theorem parse_pyright_ok_nil :
    ∀ {lines : List (List Char)} {recs : List Diag},
      runLines parsePyrightLine lines = .ok recs → recs = [] := by
  intro lines
  induction lines with
  | nil =>
    intro recs h
    simpa only [runLines, Except.ok.injEq, eq_comm] using h
  | cons l ls ih =>
    intro recs h
    simp only [runLines] at h
    cases hfl : parsePyrightLine l with
    | error e => rw [hfl] at h; cases h
    | ok o =>
      rw [hfl] at h
      cases o with
      | none => exact ih h
      | some d => exact absurd hfl (parsePyrightLine_never_some l d)

/-- Record count of a successful pyper parse: exactly one record per
line ending with the tag. -/
theorem runLines_pyper_count :
    ∀ (lines : List (List Char)) (recs : List Diag),
      runLines parsePyperLine lines = .ok recs →
      recs.length = (lines.filter (fun l => pyperTag.isSuffixOf l)).length := by
  intro lines
  induction lines with
  | nil =>
    intro recs h
    simp only [runLines, Except.ok.injEq] at h
    rw [← h]
    rfl
  | cons l ls ih =>
    intro recs h
    simp only [runLines] at h
    cases hfl : parsePyperLine l with
    | error e => rw [hfl] at h; cases h
    | ok o =>
      rw [hfl] at h
      cases o with
      | none =>
        have hs := parsePyperLine_none hfl
        simp [List.filter_cons, hs, ih recs h]
      | some d =>
        have hs := (parsePyperLine_some hfl).1
        cases hr : runLines parsePyperLine ls with
        | error e => rw [hr] at h; cases h
        | ok ds =>
          rw [hr] at h
          simp only [Except.map, Except.ok.injEq] at h
          rw [← h]
          simp [List.filter_cons, hs, ih ds hr]

/-- C1: the spec says no Format Adapter ever raises, and that a line
matching the marker whose line-number field is not an integer is
skipped.  The code instead raises ValueError out of int(): shown here
for parse_ty_output on the spec's own scenario-1 Tool A text (the
second colon-field "/proj/foo.py" is not an integer) and for
parse_pyright_output on a line it recognizes (it always evaluates
int on the character 'U' of "/Users/..."). -/
theorem C1_adapters_raise :
    parse_ty_output "error:/proj/foo.py:10:incompatible types" =
      .error .valueError ∧
    parse_pyright_output "/Users/proj/foo.py:10 - incompatible types" =
      .error .valueError := by decide

/-- C2 counterexample: a recognized ty line whose line-number field is
the integer 0 is not dropped; a record with line_number 0 < 1 is
emitted, falsifying the claim that every emitted record has line >= 1. -/
theorem C2_counterexample :
    parse_ty_output "error /p/a.py:0:m" =
      .ok [Diag.mk "a.py".toList 0 "m".toList] ∧
    (Diag.mk "a.py".toList 0 "m".toList).line_number < 1 := by decide

/-- C2 (amended): every record emitted by an adapter carries exactly the
integer int() parsed from the line-number field of a recognized input
line -- nothing is fabricated, and values below 1 pass through (lines
whose field is not an integer raise instead of being dropped, and the
pyright adapter aborts on every line it recognizes, so a successful
pyright parse is empty). -/
theorem C2_line_field_passthrough :
    (∀ (output : String) (recs : List Diag) (d : Diag),
        parse_ty_output output = .ok recs → d ∈ recs →
          ∃ l ∈ pySplitlines output.toList,
            ("error".toList).isPrefixOf l = true ∧
              ∃ p1, (pySplitChar ':' l)[1]? = some p1 ∧
                pyInt p1 = some d.line_number) ∧
    (∀ (output : String) (recs : List Diag) (d : Diag),
        parse_pyrefly_output output = .ok recs → d ∈ recs →
          ∃ l ∈ pySplitlines output.toList,
            ("ERROR".toList).isPrefixOf l = true ∧
              ∃ p1, (pySplitChar ':' l)[1]? = some p1 ∧
                pyInt (pyFirst (pySplitChar '-' p1)) = some d.line_number) ∧
    (∀ (output : String) (recs : List Diag),
        parse_pyright_output output = .ok recs → recs = []) ∧
    (∀ (output : String) (recs : List Diag) (d : Diag),
        parse_pyper_output output = .ok recs → d ∈ recs →
          ∃ l ∈ pySplitlines output.toList,
            pyperTag.isSuffixOf l = true ∧
              ∃ p1, (pySplitChar ':' l)[1]? = some p1 ∧
                pyInt p1 = some d.line_number) := by
  refine ⟨?_, ?_, ?_, ?_⟩
  · intro output recs d h hd
    obtain ⟨l, hl, hfl⟩ := runLines_ok_mem h d hd
    obtain ⟨hpre, ⟨p1, hp1, hn⟩, _⟩ := parseTyLine_some hfl
    exact ⟨l, hl, hpre, p1, hp1, hn⟩
  · intro output recs d h hd
    obtain ⟨l, hl, hfl⟩ := runLines_ok_mem h d hd
    obtain ⟨hpre, ⟨p1, hp1, hn⟩, _⟩ := parsePyreflyLine_some hfl
    exact ⟨l, hl, hpre, p1, hp1, hn⟩
  · intro output recs h
    exact parse_pyright_ok_nil h
  · intro output recs d h hd
    obtain ⟨l, hl, hfl⟩ := runLines_ok_mem h d hd
    obtain ⟨hsuf, ⟨p1, hp1, hn⟩, _⟩ := parsePyperLine_some hfl
    exact ⟨l, hl, hsuf, p1, hp1, hn⟩

/-- C2 witness: the passthrough theorem applied to the concrete run
that emits the line-0 record. -/
theorem C2_witness :
    ∃ l ∈ pySplitlines ("error /p/a.py:0:m".toList),
      ("error".toList).isPrefixOf l = true ∧
        ∃ p1, (pySplitChar ':' l)[1]? = some p1 ∧
          pyInt p1 = some (Diag.mk "a.py".toList 0 "m".toList).line_number :=
  C2_line_field_passthrough.1 "error /p/a.py:0:m"
    [Diag.mk "a.py".toList 0 "m".toList]
    (Diag.mk "a.py".toList 0 "m".toList) (by decide) (by decide)

/-- C3 counterexample: on the spec's scenario-1 raw texts the
reconciliation does not classify ("foo.py", 10) at all -- the ty
adapter raises ValueError on "error:/proj/foo.py:10:incompatible types"
(int("/proj/foo.py")) and the whole comparison aborts. -/
theorem C3_counterexample :
    compare_outputs [("ty", "error:/proj/foo.py:10:incompatible types"),
        ("pyrefly", "ERROR /proj/foo.py:10:3: incompatible types [bad-arg]")] =
      .error .valueError := by decide

/-- C3 (amended): with the colon after Tool A's leading marker replaced
by a space -- the field layout parse_ty_output actually handles, where
the marker and the path share the first colon-field -- the Location Key
("foo.py", 10) lands in the agreed partition with both tools listed. -/
theorem C3_scenario_agreed :
    compare_outputs [("ty", "error /proj/foo.py:10:incompatible types"),
        ("pyrefly", "ERROR /proj/foo.py:10:3: incompatible types [bad-arg]")] =
      .ok [(("foo.py".toList, 10),
        Entry.mk ["pyrefly", "ty"] "incompatible types".toList)] ∧
    common_errors [(("foo.py".toList, 10),
        Entry.mk ["pyrefly", "ty"] "incompatible types".toList)] =
      [(("foo.py".toList, 10),
        Entry.mk ["pyrefly", "ty"] "incompatible types".toList)] ∧
    "ty" ∈ (Entry.mk ["pyrefly", "ty"] "incompatible types".toList).checkers ∧
    "pyrefly" ∈ (Entry.mk ["pyrefly", "ty"] "incompatible types".toList).checkers := by
  decide

/-- C9 counterexample: not every line ending with the trailing tag
yields a record -- a tag-ending line whose second colon-field is not an
integer (here "b", and the bare tag line whose second field is empty)
makes int() raise ValueError, aborting the parse with no record emitted
instead of the claimed exactly-one record. -/
theorem C9_counterexample :
    parse_pyper_output "a:b:Unused ignore [0]:" = .error .valueError ∧
    parse_pyper_output "Unused ignore [0]:" = .error .valueError := by decide

/-- C9 (amended): on every raw text the pyper adapter parses without
aborting -- that is, whenever every tag-ending line's second colon-field
is an integer, as in the spec's example input -- every emitted record's
message ends with the literal trailing tag "Unused ignore [0]:"
appended onto it, and exactly one record is emitted per line ending
with the tag (lines not ending with it produce no record); a tag-ending
line whose line-number field is not an integer instead raises out of
int() and emits nothing. -/
theorem C9_pyper_trailing_tag :
    ∀ (output : String) (recs : List Diag),
      parse_pyper_output output = .ok recs →
        (∀ d ∈ recs, ∃ x, d.error_message = x ++ pyperTag) ∧
        recs.length =
          ((pySplitlines output.toList).filter
            (fun l => pyperTag.isSuffixOf l)).length := by
  intro output recs h
  constructor
  · intro d hd
    obtain ⟨l, _, hfl⟩ := runLines_ok_mem h d hd
    exact (parsePyperLine_some hfl).2.2.1
  · exact runLines_pyper_count _ _ h

/-- C9 witness: the trailing-tag theorem applied to the spec's
scenario-4 input. -/
theorem C9_witness :
    (∀ d ∈ [Diag.mk "bar.py".toList 5
        "msg text:Unused ignore [0]:Unused ignore [0]:".toList],
      ∃ x, d.error_message = x ++ pyperTag) ∧
    ([Diag.mk "bar.py".toList 5
        "msg text:Unused ignore [0]:Unused ignore [0]:".toList] : List Diag).length =
      ((pySplitlines ("/proj/bar.py:5:msg text:Unused ignore [0]:".toList)).filter
        (fun l => pyperTag.isSuffixOf l)).length :=
  C9_pyper_trailing_tag "/proj/bar.py:5:msg text:Unused ignore [0]:"
    [Diag.mk "bar.py".toList 5
      "msg text:Unused ignore [0]:Unused ignore [0]:".toList] (by decide)

/-!
Lemmas about the errors dict of compare_outputs.
-/

/-- Effect of one addError step at the processed record's own key. -/
theorem findEntry_addError_self (m : ErrMap) (c : String) (d : Diag) :
    findEntry (addError m c d) (dkey d) =
      some (match findEntry m (dkey d) with
        | none => Entry.mk [c] d.error_message
        | some e => Entry.mk (e.checkers.insert c) e.error_message) := by
  induction m with
  | nil => simp [addError, findEntry]
  | cons p rest ih =>
    obtain ⟨k0, e0⟩ := p
    by_cases hk : k0 = dkey d
    · simp [addError, findEntry, hk]
    · simp [addError, findEntry, hk, ih]

/-- An addError step leaves every other key untouched. -/
theorem findEntry_addError_other (m : ErrMap) (c : String) (d : Diag)
    (k : List Char × Int) (hk : k ≠ dkey d) :
    findEntry (addError m c d) k = findEntry m k := by
  induction m with
  | nil => simp [addError, findEntry, Ne.symm hk]
  | cons p rest ih =>
    obtain ⟨k0, e0⟩ := p
    by_cases hk0 : k0 = dkey d
    · have hne : k0 ≠ k := by rw [hk0]; exact Ne.symm hk
      simp [addError, findEntry, hk0, hne, Ne.symm hk]
    · by_cases hk1 : k0 = k
      · simp [addError, findEntry, hk0, hk1, hk]
      · simp [addError, findEntry, hk0, hk1, ih]

/-- C10: once the errors dict of compare_outputs holds a group at a key,
processing a further record with that Location Key only adds the
checker to the group's tool set; the stored message stays the message of
the first record processed at the key, and every other key's entry is
unchanged. -/
theorem C10_first_message_kept :
    ∀ (m : ErrMap) (c : String) (d : Diag) (e : Entry),
      findEntry m (dkey d) = some e →
        findEntry (addError m c d) (dkey d) =
          some (Entry.mk (e.checkers.insert c) e.error_message) ∧
        ∀ k, k ≠ dkey d → findEntry (addError m c d) k = findEntry m k := by
  intro m c d e he
  constructor
  · rw [findEntry_addError_self, he]
  · intro k hknd
    exact findEntry_addError_other m c d k hknd

/-- C10 witness: a second record at an existing key, from another tool
and with a different message, leaves the stored message "m1" in place. -/
theorem C10_witness :
    findEntry (addError [(("a.py".toList, 1), Entry.mk ["ty"] "m1".toList)]
        "pyrefly" (Diag.mk "a.py".toList 1 "m2".toList))
        (dkey (Diag.mk "a.py".toList 1 "m2".toList)) =
      some (Entry.mk (["ty"].insert "pyrefly") "m1".toList) ∧
    ∀ k, k ≠ dkey (Diag.mk "a.py".toList 1 "m2".toList) →
      findEntry (addError [(("a.py".toList, 1), Entry.mk ["ty"] "m1".toList)]
          "pyrefly" (Diag.mk "a.py".toList 1 "m2".toList)) k =
        findEntry [(("a.py".toList, 1), Entry.mk ["ty"] "m1".toList)] k :=
  C10_first_message_kept [(("a.py".toList, 1), Entry.mk ["ty"] "m1".toList)]
    "pyrefly" (Diag.mk "a.py".toList 1 "m2".toList)
    (Entry.mk ["ty"] "m1".toList) (by decide)

/-!
Lemmas about the per-location message sets of to_map.
-/

/-- The message just added is in its key's message set. -/
theorem lookupMsgs_addMsg_self :
    ∀ (mp : MsgMap) (key msg : List Char),
      msg ∈ lookupMsgs (addMsg mp key msg) key := by
  intro mp
  induction mp with
  | nil => intro key msg; simp [addMsg, lookupMsgs]
  | cons p rest ih =>
    intro key msg
    obtain ⟨k0, ms⟩ := p
    by_cases hk : k0 = key
    · simp only [addMsg, if_pos hk, lookupMsgs, hk, if_pos rfl]
      exact List.mem_insert_self _ _
    · simp only [addMsg, if_neg hk, lookupMsgs, if_neg hk]
      exact ih key msg

/-- Adding a message never removes a message from any key's set. -/
theorem lookupMsgs_addMsg_mono :
    ∀ (mp : MsgMap) (key msg k m' : List Char),
      m' ∈ lookupMsgs mp k → m' ∈ lookupMsgs (addMsg mp key msg) k := by
  intro mp
  induction mp with
  | nil => intro key msg k m' h; simp [lookupMsgs] at h
  | cons p rest ih =>
    intro key msg k m' h
    obtain ⟨k0, ms⟩ := p
    by_cases hk : k0 = key
    · by_cases hkk : k0 = k
      · simp only [lookupMsgs, if_pos hkk] at h
        simp only [addMsg, if_pos hk, lookupMsgs, if_pos hkk]
        exact List.mem_insert_iff.mpr (Or.inr h)
      · simp only [lookupMsgs, if_neg hkk] at h
        simpa only [addMsg, if_pos hk, lookupMsgs, if_neg hkk] using h
    · by_cases hkk : k0 = k
      · simp only [lookupMsgs, if_pos hkk] at h
        simpa only [addMsg, if_neg hk, lookupMsgs, if_pos hkk] using h
      · simp only [lookupMsgs, if_neg hkk] at h
        simp only [addMsg, if_neg hk, lookupMsgs, if_neg hkk]
        exact ih key msg k m' h

/-- Folding more items never removes a message from any key's set. -/
theorem lookupMsgs_to_map_go_mono :
    ∀ (items : List (List Char × List Char × List Char)) (mp : MsgMap)
      (k m' : List Char),
      m' ∈ lookupMsgs mp k → m' ∈ lookupMsgs (to_map_go mp items) k := by
  intro items
  induction items with
  | nil => intro mp k m' h; exact h
  | cons t its ih =>
    intro mp k m' h
    obtain ⟨p, row, rest⟩ := t
    exact ih _ _ _ (lookupMsgs_addMsg_mono _ _ _ _ _ h)

/-- Every processed item's message ends up in its key's set. -/
theorem mem_to_map_go :
    ∀ (items : List (List Char × List Char × List Char)) (mp : MsgMap)
      (p row rest : List Char),
      (p, row, rest) ∈ items →
        rest ∈ lookupMsgs (to_map_go mp items) (locOf p row) := by
  intro items
  induction items with
  | nil => intro mp p row rest h; simp at h
  | cons t its ih =>
    intro mp p row rest h
    rcases List.mem_cons.mp h with rfl | h2
    · exact lookupMsgs_to_map_go_mono its _ _ _
        (lookupMsgs_addMsg_self mp (locOf p row) rest)
    · clear h
      obtain ⟨p0, row0, rest0⟩ := t
      exact ih _ p row rest h2

/-- C4 counterexample: in compare_checkers.py two same-tool records at
one Location Key with different messages do not both survive; the
errors dict stores only the first message "m1", and "m2" appears
nowhere in the result. -/
theorem C4_counterexample :
    compare_outputs [("ty", "error /p/a.py:1:m1\nerror /p/a.py:1:m2")] =
      .ok [(("a.py".toList, 1), Entry.mk ["ty"] "m1".toList)] ∧
    ∀ p ∈ [(("a.py".toList, (1 : Int)), Entry.mk ["ty"] "m1".toList)],
      p.2.error_message ≠ "m2".toList := by decide

/-- C4 (amended): in compare_pyright_pyrefly.py, to_map retains every
item's message text in its Location Key's message set, so several
records at one key (even from the same tool) all keep their distinct
messages; compare_checkers.py's engine instead stores only the first
message processed at a key. -/
theorem C4_to_map_retains :
    ∀ (items : List (List Char × List Char × List Char)) (p row rest : List Char),
      (p, row, rest) ∈ items →
        rest ∈ lookupMsgs (to_map items) (locOf p row) := by
  intro items p row rest h
  exact mem_to_map_go items [] p row rest h

/-- C4 witness: both messages of two same-key items are in the map. -/
theorem C4_witness :
    "m2".toList ∈ lookupMsgs
      (to_map [("a.py".toList, "1".toList, "m1".toList),
        ("a.py".toList, "1".toList, "m2".toList)])
      (locOf "a.py".toList "1".toList) :=
  C4_to_map_retains
    [("a.py".toList, "1".toList, "m1".toList),
      ("a.py".toList, "1".toList, "m2".toList)]
    "a.py".toList "1".toList "m2".toList (by decide)

/-!
Lemmas about the sort used for the agree-only report.
-/

/-- Python string comparison is asymmetric. -/
theorem pyStrLt_asymm : ∀ (a b : List Char),
    pyStrLt a b = true → pyStrLt b a = false := by
  intro a
  induction a with
  | nil =>
    intro b h
    cases b with
    | nil => simp [pyStrLt] at h
    | cons d ds => simp [pyStrLt]
  | cons c cs ih =>
    intro b h
    cases b with
    | nil => simp [pyStrLt] at h
    | cons d ds =>
      simp only [pyStrLt] at h ⊢
      by_cases h1 : c.toNat < d.toNat
      · have h2 : ¬d.toNat < c.toNat := by omega
        rw [if_neg h2, if_pos h1]
      · by_cases h2 : d.toNat < c.toNat
        · rw [if_neg h1, if_pos h2] at h
          cases h
        · rw [if_neg h1, if_neg h2] at h
          rw [if_neg h2, if_neg h1]
          exact ih ds h

/-- The order used by sorted() is total. -/
theorem pyStrLe_total : ∀ (a b : List Char),
    pyStrLe a b = true ∨ pyStrLe b a = true := by
  intro a b
  cases hv : pyStrLt b a with
  | false => left; simp [pyStrLe, hv]
  | true => right; simp [pyStrLe, pyStrLt_asymm b a hv]

/-- Membership in an insertion step. -/
theorem mem_insertSorted (le : List Char → List Char → Bool) (a : List Char) :
    ∀ (l : List (List Char)) (x : List Char),
      x ∈ insertSorted le a l ↔ x = a ∨ x ∈ l := by
  intro l
  induction l with
  | nil => intro x; simp [insertSorted]
  | cons b bs ih =>
    intro x
    by_cases h : le a b
    · simp [insertSorted, h]
    · simp only [insertSorted, if_neg h, List.mem_cons, ih]
      tauto

/-- Sorting preserves membership. -/
theorem mem_insertionSort (le : List Char → List Char → Bool) :
    ∀ (l : List (List Char)) (x : List Char),
      x ∈ insertionSort le l ↔ x ∈ l := by
  intro l
  induction l with
  | nil => intro x; simp [insertionSort]
  | cons a as ih =>
    intro x
    simp only [insertionSort, mem_insertSorted, ih, List.mem_cons]

/-- Head of an insertion step: the new element or the old head. -/
theorem head?_insertSorted (le : List Char → List Char → Bool) (a : List Char) :
    ∀ (l : List (List Char)),
      (insertSorted le a l).head? = some a ∨
        (insertSorted le a l).head? = l.head? := by
  intro l
  cases l with
  | nil => left; rfl
  | cons b bs =>
    by_cases h : le a b
    · left; simp [insertSorted, h]
    · right; simp [insertSorted, h]

/-- Inserting into a nondecreasing run keeps it nondecreasing. -/
theorem chain'_insertSorted (le : List Char → List Char → Bool)
    (htot : ∀ a b, le a b = true ∨ le b a = true) (a : List Char) :
    ∀ (l : List (List Char)),
      l.Chain' (fun x y => le x y = true) →
        (insertSorted le a l).Chain' (fun x y => le x y = true) := by
  intro l
  induction l with
  | nil => intro _; simp [insertSorted]
  | cons b bs ih =>
    intro hch
    by_cases hab : le a b
    · simp only [insertSorted, if_pos hab]
      exact List.chain'_cons.mpr ⟨hab, hch⟩
    · simp only [insertSorted, if_neg hab]
      refine List.chain'_cons'.mpr
        ⟨?_, ih (List.chain'_cons'.mp hch).2⟩
      intro y hy
      rcases head?_insertSorted le a bs with h1 | h1
      · rw [h1] at hy
        obtain rfl : a = y := Option.some.inj hy
        rcases htot a b with h2 | h2
        · exact absurd h2 hab
        · exact h2
      · rw [h1] at hy
        exact (List.chain'_cons'.mp hch).1 y hy

/-- Insertion sort produces a nondecreasing run. -/
theorem chain'_insertionSort (le : List Char → List Char → Bool)
    (htot : ∀ a b, le a b = true ∨ le b a = true) :
    ∀ (l : List (List Char)),
      (insertionSort le l).Chain' (fun x y => le x y = true) := by
  intro l
  induction l with
  | nil => exact List.chain'_nil
  | cons a as ih => exact chain'_insertSorted le htot a _ ih

/-- C7 counterexample: with diagnostics at lines 2 and 10 of the same
file in both tools, the agree-only report lists the group for line 10
before the group for line 2, because sorted() compares the combined
"path:row" strings character by character; ordering by path and then by
numeric line would list line 2 first. -/
theorem C7_counterexample :
    (agreeOnlyReport (parse "a.py:2:m\na.py:10:m")
        (parse "a.py:2:n\na.py:10:n")).map (fun e => e.1) =
      ["a.py:10".toList, "a.py:2".toList] ∧
    pyInt "10".toList = some 10 ∧ pyInt "2".toList = some 2 := by decide

/-- C7 (amended): the agree-only report of compare_pyright_pyrefly.py
lists its groups in nondecreasing lexicographic order of the combined
"path:row" strings (so a digit-by-digit order, not a numeric one), and
inside each group the first message block is exactly Pyright's message
set at that key and the second exactly Pyrefly's -- fixed tool order,
not input-arrival order.  (compare_checkers.py prints its partitions in
dict insertion order, with no sorting of keys at all.) -/
theorem C7_report_order :
    ∀ (pyL prL : List (List Char × List Char × List Char)),
      ((agreeOnlyReport pyL prL).map (fun e => e.1)).Chain'
        (fun a b => pyStrLe a b = true) ∧
      ∀ e ∈ agreeOnlyReport pyL prL,
        (∀ msg, msg ∈ e.2.1 ↔ msg ∈ lookupMsgs (to_map pyL) e.1) ∧
        (∀ msg, msg ∈ e.2.2 ↔ msg ∈ lookupMsgs (to_map prL) e.1) := by
  intro pyL prL
  constructor
  · have hmap : (agreeOnlyReport pyL prL).map (fun e => e.1) =
        insertionSort pyStrLe (overlapping_locs pyL prL) := by
      unfold agreeOnlyReport
      rw [List.map_map]
      exact List.map_id' _
    rw [hmap]
    exact chain'_insertionSort pyStrLe pyStrLe_total _
  · intro e he
    unfold agreeOnlyReport at he
    obtain ⟨loc, _, rfl⟩ := List.mem_map.mp he
    exact ⟨fun msg => mem_insertionSort pyStrLe _ msg,
      fun msg => mem_insertionSort pyStrLe _ msg⟩

/-- C7 witness: the ordering theorem applied to a one-key run. -/
theorem C7_witness :
    (∀ msg, msg ∈ (["m".toList] : List (List Char)) ↔
        msg ∈ lookupMsgs (to_map (parse "a.py:2:m")) ("a.py:2".toList)) ∧
    (∀ msg, msg ∈ (["n".toList] : List (List Char)) ↔
        msg ∈ lookupMsgs (to_map (parse "a.py:2:n")) ("a.py:2".toList)) :=
  (C7_report_order (parse "a.py:2:m") (parse "a.py:2:n")).2
    ("a.py:2".toList, ["m".toList], ["n".toList]) (by decide)

/-!
Lemmas about path normalization.
-/

/-- No field of a single-character split contains the separator. -/
theorem pySplitCharGo_no_sep (sep : Char) :
    ∀ (rest cur : List Char), sep ∉ cur →
      ∀ p ∈ pySplitCharGo sep cur rest, sep ∉ p := by
  intro rest
  induction rest with
  | nil =>
    intro cur hcur p hp
    simp only [pySplitCharGo, List.mem_singleton] at hp
    rw [hp]
    exact fun h => hcur (List.mem_reverse.mp h)
  | cons c rest ih =>
    intro cur hcur p hp
    by_cases hc : c = sep
    · rw [pySplitCharGo, if_pos hc] at hp
      rcases List.mem_cons.mp hp with rfl | hp2
      · exact fun h => hcur (List.mem_reverse.mp h)
      · exact ih [] (by simp) p hp2
    · rw [pySplitCharGo, if_neg hc] at hp
      refine ih (c :: cur) ?_ p hp
      intro h
      rcases List.mem_cons.mp h with heq | h2
      · exact hc heq.symm
      · exact hcur h2

/-- A single-character split always yields at least one field. -/
theorem pySplitCharGo_ne_nil (sep : Char) :
    ∀ (rest cur : List Char), pySplitCharGo sep cur rest ≠ [] := by
  intro rest
  induction rest with
  | nil => intro cur; simp [pySplitCharGo]
  | cons c rest ih =>
    intro cur
    by_cases hc : c = sep
    · rw [pySplitCharGo, if_pos hc]
      simp
    · rw [pySplitCharGo, if_neg hc]
      exact ih (c :: cur)

/-- getLastD of a nonempty list is one of its elements. -/
theorem getLastD_mem {α : Type} :
    ∀ (l : List α) (d : α), l ≠ [] → l.getLastD d ∈ l := by
  intro l
  induction l with
  | nil => intro d h; exact absurd rfl h
  | cons a as ih =>
    intro d _
    rw [List.getLastD_cons]
    cases has : as with
    | nil => simp
    | cons b bs =>
      rw [← has]
      exact List.mem_cons_of_mem a (ih a (by rw [has]; simp))

/-- The basename of any raw path contains no '/' character. -/
theorem pyBasename_no_slash (cs : List Char) : '/' ∉ pyBasename cs := by
  unfold pyBasename pyLast pySplitChar
  exact pySplitCharGo_no_sep '/' cs [] (by simp) _
    (getLastD_mem _ _ (pySplitCharGo_ne_nil '/' cs []))

/-- C8 counterexample: the parse of compare_pyright_pyrefly.py keeps
the full directory-qualified path "/proj/foo.py" as the Location Key's
path component; it does not strip the directory prefix down to the
basename "foo.py". -/
theorem C8_counterexample :
    parse "/proj/foo.py:10:msg" =
      [("/proj/foo.py".toList, "10".toList, "msg".toList)] ∧
    '/' ∈ "/proj/foo.py".toList ∧
    pyBasename "/proj/foo.py".toList = "foo.py".toList := by decide

/-- C8 (amended): the compare_checkers.py adapters that can emit
records (ty, pyrefly, pyper) normalize deterministically to the
basename: each emitted record's path is the final '/'-segment of the
first colon-field of its line and so contains no '/'.  The parse of
compare_pyright_pyrefly.py instead keeps the full matched path,
stripping only surrounding whitespace; both maps are total functions of
the raw line. -/
theorem C8_basename_normalization :
    ∀ (l : List Char) (d : Diag),
      (parseTyLine l = .ok (some d) ∨ parsePyreflyLine l = .ok (some d) ∨
        parsePyperLine l = .ok (some d)) →
      d.file_path = pyBasename (pyFirst (pySplitChar ':' l)) ∧
        '/' ∉ d.file_path := by
  intro l d h
  have hpath : d.file_path = pyBasename (pyFirst (pySplitChar ':' l)) := by
    rcases h with h | h | h
    · exact (parseTyLine_some h).2.2
    · exact (parsePyreflyLine_some h).2.2
    · exact (parsePyperLine_some h).2.2.2
  refine ⟨hpath, ?_⟩
  rw [hpath]
  exact pyBasename_no_slash _

/-- C8 witness: the normalization theorem applied to a ty line with a
directory-qualified path. -/
theorem C8_witness :
    (Diag.mk "a.py".toList 3 "m".toList).file_path =
      pyBasename (pyFirst (pySplitChar ':' ("error /p/a.py:3:m".toList))) ∧
    '/' ∉ (Diag.mk "a.py".toList 3 "m".toList).file_path :=
  C8_basename_normalization ("error /p/a.py:3:m".toList)
    (Diag.mk "a.py".toList 3 "m".toList) (Or.inl (by decide))

/-!
Characterization of the checker sets built by compare_outputs.
-/

/-- Checker-set membership after one addError step. -/
theorem mem_checkersAt_addError (m : ErrMap) (c : String) (d : Diag)
    (c' : String) (key : List Char × Int) :
    c' ∈ checkersAt (addError m c d) key ↔
      c' ∈ checkersAt m key ∨ (c' = c ∧ dkey d = key) := by
  by_cases hk : key = dkey d
  · subst hk
    unfold checkersAt
    rw [findEntry_addError_self]
    cases hfe : findEntry m (dkey d) with
    | none => simp
    | some e0 =>
      simp [List.mem_insert_iff]
      tauto
  · unfold checkersAt
    rw [findEntry_addError_other m c d key hk]
    simp [show dkey d ≠ key from fun h => hk h.symm]

/-- Checker-set membership after folding one tool's record list. -/
theorem mem_checkersAt_foldAdd :
    ∀ (ds : List Diag) (m : ErrMap) (c c' : String) (key : List Char × Int),
      c' ∈ checkersAt (foldAdd m c ds) key ↔
        c' ∈ checkersAt m key ∨ (c' = c ∧ ∃ d ∈ ds, dkey d = key) := by
  intro ds
  induction ds with
  | nil => intro m c c' key; simp [foldAdd]
  | cons d ds ih =>
    intro m c c' key
    have hstep : foldAdd m c (d :: ds) = foldAdd (addError m c d) c ds := rfl
    rw [hstep, ih, mem_checkersAt_addError]
    constructor
    · rintro ((h | ⟨rfl, hk⟩) | ⟨rfl, d2, hd2, hk⟩)
      · exact Or.inl h
      · exact Or.inr ⟨rfl, d, List.mem_cons_self d ds, hk⟩
      · exact Or.inr ⟨rfl, d2, List.mem_cons_of_mem d hd2, hk⟩
    · rintro (h | ⟨rfl, d2, hd2, hk⟩)
      · exact Or.inl (Or.inl h)
      · rcases List.mem_cons.mp hd2 with rfl | h2
        · exact Or.inl (Or.inr ⟨rfl, hk⟩)
        · exact Or.inr ⟨rfl, d2, h2, hk⟩

/-- Checker-set membership in the finished errors dict: a checker is in
a key's set exactly if it was there initially or reported (per its own
parser) at that key. -/
theorem mem_checkersAt_buildErrors :
    ∀ (outs : List (String × String)) (m m' : ErrMap),
      buildErrors m outs = .ok m' →
      ∀ (c' : String) (key : List Char × Int),
        c' ∈ checkersAt m' key ↔
          c' ∈ checkersAt m key ∨ reportsAt outs c' key := by
  intro outs
  induction outs with
  | nil =>
    intro m m' h c' key
    simp only [buildErrors, Except.ok.injEq] at h
    subst h
    simp [reportsAt]
  | cons p rest ih =>
    intro m m' h c' key
    obtain ⟨c, out⟩ := p
    simp only [buildErrors] at h
    cases hdp : dispatchParse c out with
    | error e => rw [hdp] at h; cases h
    | ok ds =>
      rw [hdp] at h
      rw [ih _ _ h, mem_checkersAt_foldAdd]
      constructor
      · rintro ((h1 | ⟨rfl, d, hd, hk⟩) | h1)
        · exact Or.inl h1
        · exact Or.inr ⟨out, List.mem_cons_self _ _, ds, hdp, d, hd, hk⟩
        · obtain ⟨o, ho, t⟩ := h1
          exact Or.inr ⟨o, List.mem_cons_of_mem _ ho, t⟩
      · rintro (h1 | ⟨out2, hmem, ds2, hdp2, d, hd, hk⟩)
        · exact Or.inl (Or.inl h1)
        · rcases List.mem_cons.mp hmem with heq | h2
          · rw [Prod.mk.injEq] at heq
            obtain ⟨rfl, rfl⟩ := heq
            rw [hdp] at hdp2
            obtain rfl : ds = ds2 := by
              injection hdp2
            exact Or.inl (Or.inr ⟨rfl, d, hd, hk⟩)
          · exact Or.inr ⟨out2, h2, ds2, hdp2, d, hd, hk⟩

/-- Python's set.add never empties a set. -/
theorem insert_ne_nil (l : List String) (a : String) : l.insert a ≠ [] := by
  intro h
  by_cases hm : a ∈ l
  · rw [List.insert_of_mem hm] at h
    rw [h] at hm
    simp at hm
  · rw [List.insert_of_not_mem hm] at h
    cases h

/-- Every entry of the errors dict keeps a nonempty, duplicate-free
checker set across one addError step. -/
theorem entries_inv_addError (m : ErrMap) (c : String) (d : Diag)
    (hm : ∀ key e, findEntry m key = some e →
      e.checkers ≠ [] ∧ e.checkers.Nodup) :
    ∀ key e, findEntry (addError m c d) key = some e →
      e.checkers ≠ [] ∧ e.checkers.Nodup := by
  intro key e h
  by_cases hk : key = dkey d
  · subst hk
    rw [findEntry_addError_self] at h
    cases hfe : findEntry m (dkey d) with
    | none =>
      rw [hfe] at h
      obtain rfl := Option.some.inj h
      exact ⟨by simp, List.nodup_singleton c⟩
    | some e0 =>
      rw [hfe] at h
      obtain rfl := Option.some.inj h
      exact ⟨insert_ne_nil _ _, (hm (dkey d) e0 hfe).2.insert⟩
  · rw [findEntry_addError_other m c d key hk] at h
    exact hm key e h

/-- The entry invariant survives folding one tool's records. -/
theorem entries_inv_foldAdd :
    ∀ (ds : List Diag) (m : ErrMap) (c : String),
      (∀ key e, findEntry m key = some e →
        e.checkers ≠ [] ∧ e.checkers.Nodup) →
      ∀ key e, findEntry (foldAdd m c ds) key = some e →
        e.checkers ≠ [] ∧ e.checkers.Nodup := by
  intro ds
  induction ds with
  | nil => intro m c hm; exact hm
  | cons d ds ih =>
    intro m c hm
    exact ih (addError m c d) c (entries_inv_addError m c d hm)

/-- The entry invariant survives the whole comparison loop. -/
theorem entries_inv_buildErrors :
    ∀ (outs : List (String × String)) (m m' : ErrMap),
      buildErrors m outs = .ok m' →
      (∀ key e, findEntry m key = some e →
        e.checkers ≠ [] ∧ e.checkers.Nodup) →
      ∀ key e, findEntry m' key = some e →
        e.checkers ≠ [] ∧ e.checkers.Nodup := by
  intro outs
  induction outs with
  | nil =>
    intro m m' h hm
    simp only [buildErrors, Except.ok.injEq] at h
    subst h
    exact hm
  | cons p rest ih =>
    intro m m' h hm
    obtain ⟨c, out⟩ := p
    simp only [buildErrors] at h
    cases hdp : dispatchParse c out with
    | error e => rw [hdp] at h; cases h
    | ok ds =>
      rw [hdp] at h
      exact ih _ _ h (entries_inv_foldAdd ds m c hm)

/-!
Key-set lemmas for the errors dict.
-/

/-- A key has an entry exactly when it is among the dict's keys. -/
theorem findEntry_isSome_iff :
    ∀ (m : ErrMap) (k : List Char × Int),
      (findEntry m k).isSome = true ↔ k ∈ m.map Prod.fst := by
  intro m
  induction m with
  | nil => intro k; simp [findEntry]
  | cons p rest ih =>
    intro k
    obtain ⟨k0, e0⟩ := p
    rw [List.map_cons]
    by_cases hk : k0 = k
    · rw [findEntry, if_pos hk]
      constructor
      · intro _
        rw [← hk]
        exact List.mem_cons_self _ _
      · intro _
        rfl
    · rw [findEntry, if_neg hk, ih k]
      constructor
      · intro h
        exact List.mem_cons_of_mem _ h
      · intro h
        rcases List.mem_cons.mp h with heq | h2
        · exact absurd heq.symm hk
        · exact h2

/-- A looked-up entry is an element of the dict. -/
theorem findEntry_some_mem :
    ∀ (m : ErrMap) (k : List Char × Int) (e : Entry),
      findEntry m k = some e → (k, e) ∈ m := by
  intro m
  induction m with
  | nil => intro k e h; cases h
  | cons p rest ih =>
    intro k e h
    obtain ⟨k0, e0⟩ := p
    by_cases hk : k0 = k
    · rw [findEntry, if_pos hk] at h
      obtain rfl := Option.some.inj h
      rw [hk]
      exact List.mem_cons_self _ _
    · rw [findEntry, if_neg hk] at h
      exact List.mem_cons_of_mem _ (ih k e h)

/-- With duplicate-free keys, a key determines its entry. -/
theorem mem_entry_unique :
    ∀ (m : ErrMap), (m.map Prod.fst).Nodup →
      ∀ (k : List Char × Int) (e1 e2 : Entry),
        (k, e1) ∈ m → (k, e2) ∈ m → e1 = e2 := by
  intro m
  induction m with
  | nil => intro _ k e1 e2 h1; simp at h1
  | cons p rest ih =>
    intro hnd k e1 e2 h1 h2
    obtain ⟨k0, e0⟩ := p
    rw [List.map_cons, List.nodup_cons] at hnd
    rcases List.mem_cons.mp h1 with heq1 | h1t
    · rcases List.mem_cons.mp h2 with heq2 | h2t
      · rw [Prod.mk.injEq] at heq1 heq2
        rw [heq1.2, heq2.2]
      · rw [Prod.mk.injEq] at heq1
        exact absurd (List.mem_map.mpr ⟨(k, e2), h2t, heq1.1⟩) hnd.1
    · rcases List.mem_cons.mp h2 with heq2 | h2t
      · rw [Prod.mk.injEq] at heq2
        exact absurd (List.mem_map.mpr ⟨(k, e1), h1t, heq2.1⟩) hnd.1
      · exact ih hnd.2 k e1 e2 h1t h2t

/-- Key list after one addError step: unchanged for an existing key, the
new key appended otherwise. -/
theorem map_fst_addError :
    ∀ (m : ErrMap) (c : String) (d : Diag),
      (addError m c d).map Prod.fst =
        if (findEntry m (dkey d)).isSome then m.map Prod.fst
        else m.map Prod.fst ++ [dkey d] := by
  intro m c d
  induction m with
  | nil => simp [addError, findEntry]
  | cons p rest ih =>
    obtain ⟨k0, e0⟩ := p
    by_cases hk : k0 = dkey d
    · simp [addError, findEntry, hk]
    · simp only [addError, if_neg hk, List.map_cons, findEntry, ih]
      by_cases hs : (findEntry rest (dkey d)).isSome
      · simp [hs, hk]
      · simp [hs, hk]

/-- Key uniqueness survives one addError step. -/
theorem keys_nodup_addError (m : ErrMap) (c : String) (d : Diag)
    (h : (m.map Prod.fst).Nodup) :
    ((addError m c d).map Prod.fst).Nodup := by
  rw [map_fst_addError]
  by_cases hs : (findEntry m (dkey d)).isSome
  · simpa [hs] using h
  · rw [if_neg hs]
    have hnm : dkey d ∉ m.map Prod.fst :=
      fun hm => hs ((findEntry_isSome_iff m _).mpr hm)
    simp [List.nodup_append, h, hnm]

/-- Key uniqueness survives folding one tool's records. -/
theorem keys_nodup_foldAdd :
    ∀ (ds : List Diag) (m : ErrMap) (c : String),
      (m.map Prod.fst).Nodup → ((foldAdd m c ds).map Prod.fst).Nodup := by
  intro ds
  induction ds with
  | nil => intro m c h; exact h
  | cons d ds ih =>
    intro m c h
    exact ih (addError m c d) c (keys_nodup_addError m c d h)

/-- Key uniqueness survives the whole comparison loop. -/
theorem keys_nodup_buildErrors :
    ∀ (outs : List (String × String)) (m m' : ErrMap),
      buildErrors m outs = .ok m' →
      (m.map Prod.fst).Nodup → (m'.map Prod.fst).Nodup := by
  intro outs
  induction outs with
  | nil =>
    intro m m' h hm
    simp only [buildErrors, Except.ok.injEq] at h
    subst h
    exact hm
  | cons p rest ih =>
    intro m m' h hm
    obtain ⟨c, out⟩ := p
    simp only [buildErrors] at h
    cases hdp : dispatchParse c out with
    | error e => rw [hdp] at h; cases h
    | ok ds =>
      rw [hdp] at h
      exact ih _ _ h (keys_nodup_foldAdd ds m c hm)

/-- Keys of a filtered dict: the keys whose entry passes the filter. -/
theorem mem_keys_filter (m : ErrMap) (p : (List Char × Int) × Entry → Bool)
    (key : List Char × Int) :
    key ∈ (m.filter p).map Prod.fst ↔
      ∃ e, (key, e) ∈ m ∧ p (key, e) = true := by
  constructor
  · intro h
    rcases List.mem_map.mp h with ⟨⟨k1, e⟩, hx, rfl⟩
    obtain ⟨hm, hp⟩ := List.mem_filter.mp hx
    exact ⟨e, hm, hp⟩
  · rintro ⟨e, hm, hp⟩
    exact List.mem_map.mpr ⟨(key, e), List.mem_filter.mpr ⟨hm, hp⟩, rfl⟩

/-- C5: for every outputs mapping on which compare_outputs succeeds, a
Location Key appears in the errors dict exactly when some tool reported
at it, and every such key lies in exactly one of the common (agreed)
and unique (exclusive) partitions -- in one exactly when not in the
other. -/
theorem C5_partition :
    ∀ (outputs : List (String × String)) (m : ErrMap),
      compare_outputs outputs = .ok m →
      ∀ key : List Char × Int,
        ((∃ c, reportsAt outputs c key) ↔ key ∈ m.map Prod.fst) ∧
        (key ∈ m.map Prod.fst →
          (key ∈ (common_errors m).map Prod.fst ↔
            key ∉ (unique_errors m).map Prod.fst)) := by
  intro outputs m hcmp key
  have hinv : ∀ k e, findEntry m k = some e →
      e.checkers ≠ [] ∧ e.checkers.Nodup :=
    entries_inv_buildErrors outputs [] m hcmp (by intro k e h; cases h)
  have hchar : ∀ c k, c ∈ checkersAt m k ↔ reportsAt outputs c k := by
    intro c k
    have h1 := mem_checkersAt_buildErrors outputs [] m hcmp c k
    have h2 : checkersAt [] k = ([] : List String) := rfl
    rw [h2] at h1
    simpa using h1
  have hnodup : (m.map Prod.fst).Nodup :=
    keys_nodup_buildErrors outputs [] m hcmp (by simp)
  have hexists : key ∈ m.map Prod.fst → ∃ e, findEntry m key = some e := by
    intro hk
    have hs := (findEntry_isSome_iff m key).mpr hk
    cases hfe : findEntry m key with
    | none => rw [hfe] at hs; cases hs
    | some e => exact ⟨e, rfl⟩
  constructor
  · constructor
    · rintro ⟨c, hc⟩
      have hc2 : c ∈ checkersAt m key := (hchar c key).mpr hc
      rw [← findEntry_isSome_iff]
      cases hfe : findEntry m key with
      | none =>
        unfold checkersAt at hc2
        rw [hfe] at hc2
        simp at hc2
      | some e => rfl
    · intro hk
      obtain ⟨e, hfe⟩ := hexists hk
      obtain ⟨hne, -⟩ := hinv key e hfe
      obtain ⟨c, hc⟩ := List.exists_mem_of_ne_nil e.checkers hne
      refine ⟨c, (hchar c key).mp ?_⟩
      unfold checkersAt
      rw [hfe]
      exact hc
  · intro hk
    obtain ⟨e, hfe⟩ := hexists hk
    have hmem := findEntry_some_mem m key e hfe
    have hcm : key ∈ (common_errors m).map Prod.fst ↔
        1 < e.checkers.length := by
      unfold common_errors
      rw [mem_keys_filter]
      constructor
      · rintro ⟨e2, hm2, hp⟩
        obtain rfl : e2 = e := mem_entry_unique m hnodup key e2 e hm2 hmem
        simpa using hp
      · intro hlen
        exact ⟨e, hmem, by simpa using hlen⟩
    have hun : key ∈ (unique_errors m).map Prod.fst ↔
        e.checkers.length = 1 := by
      unfold unique_errors
      rw [mem_keys_filter]
      constructor
      · rintro ⟨e2, hm2, hp⟩
        obtain rfl : e2 = e := mem_entry_unique m hnodup key e2 e hm2 hmem
        simpa using hp
      · intro hlen
        exact ⟨e, hmem, by simpa using hlen⟩
    rw [hcm, hun]
    have hpos : 0 < e.checkers.length :=
      List.length_pos.mpr (hinv key e hfe).1
    omega

/-- C5 witness: the partition theorem applied to a one-tool run. -/
theorem C5_witness :
    ((∃ c, reportsAt [("ty", "error /p/a.py:1:m")] c ("a.py".toList, 1)) ↔
      ("a.py".toList, (1 : Int)) ∈
        ([(("a.py".toList, 1), Entry.mk ["ty"] "m".toList)] : ErrMap).map
          Prod.fst) ∧
    (("a.py".toList, (1 : Int)) ∈
        ([(("a.py".toList, 1), Entry.mk ["ty"] "m".toList)] : ErrMap).map
          Prod.fst →
      (("a.py".toList, (1 : Int)) ∈
          (common_errors
            [(("a.py".toList, 1), Entry.mk ["ty"] "m".toList)]).map Prod.fst ↔
        ("a.py".toList, (1 : Int)) ∉
          (unique_errors
            [(("a.py".toList, 1), Entry.mk ["ty"] "m".toList)]).map Prod.fst)) :=
  C5_partition [("ty", "error /p/a.py:1:m")]
    [(("a.py".toList, 1), Entry.mk ["ty"] "m".toList)] (by decide)
    ("a.py".toList, 1)

/-- C6: in a successful compare_outputs run, every group's checker set
is duplicate-free (each tool counted once however many records it had
at the key) and holds exactly the tools that reported at the key; the
group is in the common (agreed) partition exactly when two distinct
tools reported at its key, and in the unique (exclusive) partition
exactly when precisely one tool did -- message text playing no role. -/
theorem C6_agreed_iff_two_tools :
    ∀ (outputs : List (String × String)) (m : ErrMap),
      compare_outputs outputs = .ok m →
      ∀ (key : List Char × Int) (e : Entry), findEntry m key = some e →
        e.checkers.Nodup ∧
        (∀ c, c ∈ e.checkers ↔ reportsAt outputs c key) ∧
        ((key, e) ∈ common_errors m ↔
          ∃ c1 c2, c1 ≠ c2 ∧
            reportsAt outputs c1 key ∧ reportsAt outputs c2 key) ∧
        ((key, e) ∈ unique_errors m ↔
          ∃ c, reportsAt outputs c key ∧
            ∀ c2, reportsAt outputs c2 key → c2 = c) := by
  intro outputs m hcmp key e hfe
  have hinv := entries_inv_buildErrors outputs [] m hcmp
    (by intro k e2 h; cases h)
  have hchar : ∀ c, c ∈ e.checkers ↔ reportsAt outputs c key := by
    intro c
    have h1 := mem_checkersAt_buildErrors outputs [] m hcmp c key
    have h2 : checkersAt [] key = ([] : List String) := rfl
    have h3 : checkersAt m key = e.checkers := by
      unfold checkersAt
      rw [hfe]
    rw [h2, h3] at h1
    simpa using h1
  have hnd : e.checkers.Nodup := (hinv key e hfe).2
  have hmem : (key, e) ∈ m := findEntry_some_mem m key e hfe
  refine ⟨hnd, hchar, ?_, ?_⟩
  · unfold common_errors
    rw [List.mem_filter]
    constructor
    · rintro ⟨-, hp⟩
      have hlen : 1 < e.checkers.length := by simpa using hp
      obtain ⟨c1, c2, hne, h1, h2⟩ :
          ∃ c1 c2, c1 ≠ c2 ∧ c1 ∈ e.checkers ∧ c2 ∈ e.checkers := by
        cases hl : e.checkers with
        | nil => rw [hl] at hlen; simp at hlen
        | cons a as =>
          cases has : as with
          | nil => rw [hl, has] at hlen; simp at hlen
          | cons b bs =>
            have hnd2 := hnd
            rw [hl, has] at hnd2
            have hab : a ≠ b := by
              intro hh
              exact (List.nodup_cons.mp hnd2).1 (hh ▸ List.mem_cons_self b bs)
            exact ⟨a, b, hab, List.mem_cons_self _ _,
              List.mem_cons_of_mem _ (List.mem_cons_self _ _)⟩
      exact ⟨c1, c2, hne, (hchar c1).mp h1, (hchar c2).mp h2⟩
    · rintro ⟨c1, c2, hne, h1, h2⟩
      refine ⟨hmem, ?_⟩
      have hm1 : c1 ∈ e.checkers := (hchar c1).mpr h1
      have hm2 : c2 ∈ e.checkers := (hchar c2).mpr h2
      have hlen : 1 < e.checkers.length := by
        cases hl : e.checkers with
        | nil => rw [hl] at hm1; simp at hm1
        | cons a as =>
          cases has : as with
          | nil =>
            rw [hl, has] at hm1 hm2
            simp at hm1 hm2
            exact absurd (hm1.trans hm2.symm) hne
          | cons b bs =>
            simp only [List.length_cons]
            omega
      simpa using hlen
  · unfold unique_errors
    rw [List.mem_filter]
    constructor
    · rintro ⟨-, hp⟩
      have hlen : e.checkers.length = 1 := by simpa using hp
      obtain ⟨c, hc⟩ := List.length_eq_one.mp hlen
      refine ⟨c, (hchar c).mp (by rw [hc]; exact List.mem_cons_self _ _), ?_⟩
      intro c2 h2
      have hm2 := (hchar c2).mpr h2
      rw [hc] at hm2
      simpa using hm2
    · rintro ⟨c, hc, huniq⟩
      refine ⟨hmem, ?_⟩
      have hcm : c ∈ e.checkers := (hchar c).mpr hc
      have hlen : e.checkers.length = 1 := by
        cases hl : e.checkers with
        | nil => rw [hl] at hcm; simp at hcm
        | cons a as =>
          have ha : a = c := huniq a
            ((hchar a).mp (by rw [hl]; exact List.mem_cons_self _ _))
          cases has : as with
          | nil => rfl
          | cons b bs =>
            have hb2 : b ∈ e.checkers := by
              rw [hl, has]
              exact List.mem_cons_of_mem _ (List.mem_cons_self _ _)
            have hb : b = c := huniq b ((hchar b).mp hb2)
            have hnd2 := hnd
            rw [hl, has] at hnd2
            have hab : a ≠ b := by
              intro hh
              exact (List.nodup_cons.mp hnd2).1 (hh ▸ List.mem_cons_self b bs)
            exact absurd (ha.trans hb.symm) hab
      simpa using hlen

/-- C6 witness: the classification theorem applied to a run in which ty
and pyrefly both report at ("a.py", 1). -/
theorem C6_witness :
    (Entry.mk ["pyrefly", "ty"] "m".toList).checkers.Nodup ∧
    (∀ c, c ∈ (Entry.mk ["pyrefly", "ty"] "m".toList).checkers ↔
      reportsAt [("ty", "error /p/a.py:1:m"), ("pyrefly", "ERROR /p/a.py:1:n")]
        c ("a.py".toList, 1)) ∧
    ((("a.py".toList, (1 : Int)), Entry.mk ["pyrefly", "ty"] "m".toList) ∈
        common_errors
          [(("a.py".toList, 1), Entry.mk ["pyrefly", "ty"] "m".toList)] ↔
      ∃ c1 c2, c1 ≠ c2 ∧
        reportsAt [("ty", "error /p/a.py:1:m"),
          ("pyrefly", "ERROR /p/a.py:1:n")] c1 ("a.py".toList, 1) ∧
        reportsAt [("ty", "error /p/a.py:1:m"),
          ("pyrefly", "ERROR /p/a.py:1:n")] c2 ("a.py".toList, 1)) ∧
    ((("a.py".toList, (1 : Int)), Entry.mk ["pyrefly", "ty"] "m".toList) ∈
        unique_errors
          [(("a.py".toList, 1), Entry.mk ["pyrefly", "ty"] "m".toList)] ↔
      ∃ c, reportsAt [("ty", "error /p/a.py:1:m"),
          ("pyrefly", "ERROR /p/a.py:1:n")] c ("a.py".toList, 1) ∧
        ∀ c2, reportsAt [("ty", "error /p/a.py:1:m"),
            ("pyrefly", "ERROR /p/a.py:1:n")] c2 ("a.py".toList, 1) → c2 = c) :=
  C6_agreed_iff_two_tools
    [("ty", "error /p/a.py:1:m"), ("pyrefly", "ERROR /p/a.py:1:n")]
    [(("a.py".toList, 1), Entry.mk ["pyrefly", "ty"] "m".toList)]
    (by decide) ("a.py".toList, 1)
    (Entry.mk ["pyrefly", "ty"] "m".toList) (by decide)
